import Mathlib

/-!
Verification development for the fireside-bot repository: a shallow
embedding of the declarative schema/migration engine described by the
specification, of the CLI batch driver in `run.py`, and of the pure
decision logic of the `configuring` and `moderation` cogs.

Engine internals (`cogs/utils/db.py`) are not part of the provided
sources; definitions for them are modelled from the specification and
marked as such in their doc comments.  Everything from `run.py`,
`cogs/configuring.py` and `cogs/moderation.py` is translated directly
from the source.
-/

namespace Fireside

/-- Default value carried by a column, type-matched to the column type. -/
inductive DefVal where
  | boolVal (b : Bool)
  | intVal (n : Int)
  | strVal (s : String)
deriving DecidableEq, Repr

/-- Column semantic type: integer (with a wide/64-bit variant flag),
string, boolean, serial/auto-increment. -/
inductive ColType where
  | integer (big : Bool)
  | string
  | boolean
  | serial
deriving DecidableEq, Repr

/-- Column descriptor: name, semantic type, nullability, optional
default, primary-key flag (spec section 3). -/
structure Column where
  name : String
  ctype : ColType
  nullable : Bool
  default : Option DefVal
  primary_key : Bool
deriving DecidableEq, Repr

/-- Modelled from the spec: `db.DiscordIDColumn`, a wide (64-bit)
integer column for externally-sourced identifiers, not a primary key. -/
def DiscordIDColumn (nm : String) (nullable : Bool) : Column :=
  ⟨nm, ColType.integer true, nullable, none, false⟩

/-- Modelled from the spec: `db.PrimaryKeyColumn`, a serial column
acting as the table's primary key. -/
def PrimaryKeyColumn (nm : String) : Column :=
  ⟨nm, ColType.serial, false, none, true⟩

/-- Number of columns flagged as primary key in a declaration. -/
def pkCount (cols : List Column) : Nat :=
  (cols.filter (fun c => c.primary_key)).length

/-- A validated table descriptor. -/
structure TableDecl where
  tname : String
  columns : List Column
deriving DecidableEq, Repr

/-- Modelled from the spec: declaration-time validation of a table
descriptor — exactly one primary key column is required, otherwise the
declaration is rejected before any database interaction. -/
def mkTable (nm : String) (cols : List Column) : Except String TableDecl :=
  if pkCount cols = 1 then Except.ok ⟨nm, cols⟩
  else Except.error ("table " ++ nm ++ " must have exactly one primary key")

/-- Whether an `Except` computation succeeded. -/
def isOkE {ε α : Type} : Except ε α → Bool
  | Except.ok _ => true
  | Except.error _ => false

/-- Column list of `GuildConfig` in `src/cogs/configuring.py`. -/
def guild_config_columns : List Column :=
  [ ⟨"id", ColType.integer true, false, none, true⟩
  , DiscordIDColumn "modlog_channel_id" false
  , DiscordIDColumn "mod_channel_id" false
  , DiscordIDColumn "default_channel_id" false
  , ⟨"greeting", ColType.string, false, none, false⟩
  , ⟨"is_configured", ColType.boolean, false, some (DefVal.boolVal false), false⟩
  , DiscordIDColumn "tracker_channel_id" true
  , DiscordIDColumn "poll_channel_id" false ]

/-- Column list of `PunishmentConfig` in `src/cogs/configuring.py`. -/
def punishment_config_columns : List Column :=
  [ ⟨"id", ColType.integer true, false, none, true⟩
  , DiscordIDColumn "jailed_role_id" false
  , DiscordIDColumn "shitpost_role_id" false
  , DiscordIDColumn "jailed_channel_id" false
  , DiscordIDColumn "shitpost_channel_id" false ]

/-- Column list of `VCChannelConfig` in `src/cogs/configuring.py`. -/
def vc_channel_config_columns : List Column :=
  [ PrimaryKeyColumn "id"
  , DiscordIDColumn "guild_id" false
  , DiscordIDColumn "vc_channel_id" false
  , DiscordIDColumn "channel_id" false ]

/-- Claim C7: a table descriptor is successfully constructed exactly
when it has exactly one primary key column (zero or several are
rejected at declaration time), and every table declared in the
configuring cog satisfies the invariant. -/
theorem table_pk_invariant :
    (∀ nm cols, isOkE (mkTable nm cols) = true ↔ pkCount cols = 1) ∧
    isOkE (mkTable "guild_config" guild_config_columns) = true ∧
    isOkE (mkTable "punishment_config" punishment_config_columns) = true ∧
    isOkE (mkTable "vc_channel_config" vc_channel_config_columns) = true := by
  refine ⟨fun nm cols => ?_, by decide, by decide, by decide⟩
  unfold mkTable
  split
  · simp [isOkE]; omega
  · simp [isOkE]; omega

/-- A guild member, as far as `newusers` inspects one. -/
structure Member where
  mid : Nat
  joined_at : Nat
  created_at : Nat
deriving DecidableEq, Repr

/-- Count clamp of the `newusers` command in `src/cogs/moderation.py`:
`count = max(min(int(count), 25), 5)`. -/
def effectiveCount (count : Int) : Int := max (min count 25) 5

/-- Member selection of `newusers`: guild members sorted by join time,
most recent first, truncated to the effective count. -/
def newestMembers (members : List Member) (count : Int) : List Member :=
  (members.mergeSort (fun a b => decide (b.joined_at ≤ a.joined_at))).take
    (effectiveCount count).toNat

/-- Claim C8: the effective count of `newusers` always lies in [5, 25],
and the listed members are at most 25, drawn from the guild members in
descending order of join time. -/
theorem newusers_clamped :
    (∀ count : Int, 5 ≤ effectiveCount count ∧ effectiveCount count ≤ 25) ∧
    (∀ (members : List Member) (count : Int),
      (newestMembers members count).length ≤ 25 ∧
      (newestMembers members count).Pairwise (fun a b => b.joined_at ≤ a.joined_at) ∧
      ∀ m ∈ newestMembers members count, m ∈ members) := by
  constructor
  · intro count
    unfold effectiveCount
    omega
  · intro members count
    refine ⟨?_, ?_, ?_⟩
    · have h1 : (newestMembers members count).length ≤ (effectiveCount count).toNat := by
        unfold newestMembers
        exact List.length_take_le _ _
      have h2 : (effectiveCount count).toNat ≤ 25 := by
        unfold effectiveCount
        omega
      omega
    · have hs := @List.sorted_mergeSort Member
        (fun a b : Member => decide (b.joined_at ≤ a.joined_at))
        (fun a b c => by simp only [decide_eq_true_eq]; omega)
        (fun a b => by simp only [Bool.or_eq_true, decide_eq_true_eq]; omega)
        members
      have hsub : List.Sublist (newestMembers members count)
          (members.mergeSort (fun a b => decide (b.joined_at ≤ a.joined_at))) := by
        unfold newestMembers
        exact List.take_sublist _ _
      have := hs.sublist hsub
      exact this.imp (fun h => by simpa using h)
    · intro m hm
      have hsub : List.Sublist (newestMembers members count)
          (members.mergeSort (fun a b => decide (b.joined_at ≤ a.joined_at))) := by
        unfold newestMembers
        exact List.take_sublist _ _
      have := hsub.mem hm
      rwa [List.mem_mergeSort] at this

/-- A guild role, as far as the role-pool commands inspect one. -/
structure Role where
  rid : Nat
deriving DecidableEq, Repr

/-- Insert computation of `_bulk_add_roles` in `src/cogs/configuring.py`:
the rows bulk-copied into `roles`, after filtering out role ids already
stored for the guild. -/
def toInsert (guild_id : Nat) (category : Option String) (current : List Nat)
    (roles : List Role) : List (Nat × Nat × Option String) :=
  (roles.filter (fun r => decide (r.rid ∉ current))).map (fun r => (guild_id, r.rid, category))

/-- Rows of the `roles` table after the bulk copy, projected to the
(guild_id, role_id) pair. -/
def afterPairs (guild_id : Nat) (category : Option String) (current : List Nat)
    (roles : List Role) : List (Nat × Nat) :=
  current.map (fun i => (guild_id, i)) ++
    (toInsert guild_id category current roles).map (fun x => (x.1, x.2.1))

/-- Claim C9 counterexample: invoking the bulk add with the same role
listed twice copies two identical (guild_id, role_id) rows, so the
command can create a duplicate row. -/
theorem bulk_add_duplicate_cex :
    ¬ (afterPairs 1 none [] [⟨5⟩, ⟨5⟩]).Nodup := by decide

/-- Claim C9 (amended): provided the supplied role sequence has no
duplicate role ids, only roles not already recorded for the guild are
inserted, and the resulting table holds no duplicate
(guild_id, role_id) row. -/
theorem bulk_add_no_duplicates (g : Nat) (cat : Option String) (current : List Nat)
    (roles : List Role) (hr : (roles.map Role.rid).Nodup) (hc : current.Nodup) :
    (afterPairs g cat current roles).Nodup ∧
    ∀ row ∈ toInsert g cat current roles, row.2.1 ∉ current := by
  have hins : ∀ row ∈ toInsert g cat current roles, row.2.1 ∉ current := by
    intro row hrow
    unfold toInsert at hrow
    simp only [List.mem_map, List.mem_filter, decide_eq_true_eq] at hrow
    obtain ⟨r, ⟨_, hnotin⟩, rfl⟩ := hrow
    exact hnotin
  refine ⟨?_, hins⟩
  unfold afterPairs
  rw [List.nodup_append]
  refine ⟨?_, ?_, ?_⟩
  · exact hc.map (fun a b h => by simpa using h)
  · unfold toInsert
    rw [List.map_map]
    have hf : (roles.filter (fun r => decide (r.rid ∉ current))).map Role.rid |>.Nodup := by
      have hsub : List.Sublist
          ((roles.filter (fun r => decide (r.rid ∉ current))).map Role.rid)
          (roles.map Role.rid) :=
        (List.filter_sublist _).map _
      exact hr.sublist hsub
    have : ((fun x : Nat × Nat × Option String => (x.1, x.2.1)) ∘
        fun r : Role => (g, r.rid, cat)) = fun r : Role => (g, r.rid) := rfl
    rw [this]
    have : (fun r : Role => (g, r.rid)) = (fun i : Nat => (g, i)) ∘ Role.rid := rfl
    rw [this, ← List.map_map]
    exact hf.map (fun a b h => by simpa using h)
  · intro p hp hq
    simp only [List.mem_map] at hp
    obtain ⟨i, hi, rfl⟩ := hp
    simp only [List.mem_map] at hq
    obtain ⟨row, hrow, heq⟩ := hq
    have : row.2.1 = i := congrArg Prod.snd heq
    exact hins row hrow (this ▸ hi)

/-- How a `RoleRange` endpoint can be read: as an integer position, or
as a role resolving to a position (either may be unavailable). -/
structure Endpoint where
  asInt : Option Int
  asRole : Option Int
deriving DecidableEq, Repr

/-- Python index normalisation for a slice bound: negative indices count
from the end, and bounds are clamped to [0, n]. -/
def pyNorm (n : Nat) (i : Int) : Nat :=
  if i < 0 then ((n : Int) + i).toNat else min i.toNat n

/-- Python list slice `l[start:stop]` with step 1. -/
def pySlice {α : Type} (l : List α) (start stop : Int) : List α :=
  (l.take (pyNorm l.length stop)).drop (pyNorm l.length start)

/-- Endpoint resolution of `RoleRange.convert` in
`src/cogs/configuring.py`: both endpoints are read as integers when both
parse; otherwise both are resolved as roles, failing on the first
endpoint that does not resolve. -/
def resolveEndpoints (first second : Endpoint) : Except String (Int × Int) :=
  match first.asInt, second.asInt with
  | some a, some b => Except.ok (a, b)
  | _, _ =>
    match first.asRole with
    | none => Except.error "Invalid first argument"
    | some p1 =>
      match second.asRole with
      | none => Except.error "Invalid second argument"
      | some p2 => Except.ok (p1, p2)

/-- Validation and slicing stage of `RoleRange.convert`: reject
positions at or above the bot's top role, then non-descending ranges,
then return the inclusive slice `roles[second_pos : first_pos + 1]`. -/
def rangeCheck {α : Type} (botHighest : Int) (roles : List α) (fp sp : Int) :
    Except String (List α) :=
  if fp ≥ botHighest ∨ sp ≥ botHighest then
    Except.error "Bad range provided (role hierarchy conflict)"
  else if fp ≤ sp then
    Except.error "Bad range provided (not descending)"
  else Except.ok (pySlice roles sp (fp + 1))

/-- `RoleRange.convert` from `src/cogs/configuring.py`: resolve both
endpoints, then validate the positions and slice the guild role list. -/
def convert {α : Type} (botHighest : Int) (roles : List α) (first second : Endpoint) :
    Except String (List α) :=
  match resolveEndpoints first second with
  | Except.error e => Except.error e
  | Except.ok (fp, sp) => rangeCheck botHighest roles fp sp

/-- Position of an endpoint under the claim's per-endpoint reading:
its integer parse if available, otherwise its role position. -/
def claimPos (e : Endpoint) : Option Int :=
  match e.asInt with
  | some a => some a
  | none => e.asRole

/-- Positions the code actually uses: the integer pair when both
endpoints parse as integers, otherwise the role pair when both resolve. -/
def stagedPos (first second : Endpoint) : Option (Int × Int) :=
  match first.asInt, second.asInt with
  | some a, some b => some (a, b)
  | _, _ =>
    match first.asRole, second.asRole with
    | some p, some q => some (p, q)
    | _, _ => none

/-- Claim C10 counterexample: with a first endpoint that only resolves
as a role (position 10) and a second endpoint that only parses as an
integer (5), every failure condition of the claim is false — both
endpoints are readable, both positions are below the bot's top role
at 20, and 10 > 5 — yet `convert` raises `BadArgument` because the code
takes the integer path only when both endpoints parse as integers. -/
theorem rolerange_convert_cex :
    claimPos ⟨none, some 10⟩ = some 10 ∧
    claimPos ⟨some 5, none⟩ = some 5 ∧
    (10 : Int) < 20 ∧ (5 : Int) < 20 ∧ (5 : Int) < 10 ∧
    convert 20 (List.range 15) ⟨none, some 10⟩ ⟨some 5, none⟩ =
      Except.error "Invalid second argument" := by
  refine ⟨rfl, rfl, by norm_num, by norm_num, by norm_num, rfl⟩

/-- Claim C10 (amended): `convert` succeeds exactly when the staged
resolution yields a position pair (both endpoints parse as integers, or
otherwise both resolve as roles) whose members are below the bot's top
role position and which is strictly descending; in that case it returns
the inclusive slice `roles[second_pos : first_pos + 1]`, and in every
other case it raises `BadArgument`. -/
theorem rolerange_convert_characterization {α : Type} (bh : Int) (roles : List α)
    (first second : Endpoint) :
    (isOkE (convert bh roles first second) = true ↔
      ∃ fp sp, stagedPos first second = some (fp, sp) ∧ fp < bh ∧ sp < bh ∧ sp < fp) ∧
    (∀ fp sp, stagedPos first second = some (fp, sp) → fp < bh → sp < bh → sp < fp →
      convert bh roles first second = Except.ok (pySlice roles sp (fp + 1))) := by
  have hstage : ∀ fp sp : Int,
      resolveEndpoints first second = Except.ok (fp, sp) ↔
      stagedPos first second = some (fp, sp) := by
    intro fp sp
    unfold resolveEndpoints stagedPos
    rcases first.asInt with _ | a <;> rcases second.asInt with _ | b <;>
      rcases first.asRole with _ | p <;> rcases second.asRole with _ | q <;> simp
  have hcheck : ∀ fp sp : Int,
      (isOkE (rangeCheck bh roles fp sp) = true ↔ fp < bh ∧ sp < bh ∧ sp < fp) ∧
      (fp < bh → sp < bh → sp < fp →
        rangeCheck bh roles fp sp = Except.ok (pySlice roles sp (fp + 1))) := by
    intro fp sp
    unfold rangeCheck
    constructor
    · constructor
      · intro h
        split at h
        · simp [isOkE] at h
        · split at h
          · simp [isOkE] at h
          · refine ⟨?_, ?_, ?_⟩ <;> omega
      · rintro ⟨h1, h2, h3⟩
        rw [if_neg (by omega), if_neg (by omega)]
        rfl
    · intro h1 h2 h3
      rw [if_neg (by omega), if_neg (by omega)]
  constructor
  · cases hres : resolveEndpoints first second with
    | error e =>
      simp only [convert, hres, isOkE]
      constructor
      · intro h; exact absurd h (by simp)
      · rintro ⟨fp, sp, hpair, h1, h2, h3⟩
        rw [← hstage fp sp] at hpair
        rw [hres] at hpair
        exact absurd hpair (by simp)
    | ok pr =>
      obtain ⟨fp, sp⟩ := pr
      have hp := (hstage fp sp).mp hres
      simp only [convert, hres]
      constructor
      · intro h
        exact ⟨fp, sp, hp, ((hcheck fp sp).1.mp h)⟩
      · rintro ⟨fp', sp', hpair, h1, h2, h3⟩
        rw [hp] at hpair
        injection hpair with hpair
        injection hpair with e1 e2
        subst e1; subst e2
        exact (hcheck fp sp).1.mpr ⟨h1, h2, h3⟩
  · intro fp sp hpair h1 h2 h3
    have hres := (hstage fp sp).mpr hpair
    simp only [convert, hres]
    exact (hcheck fp sp).2 h1 h2 h3

/-- A column-level schema operation (spec section 4.2): add a column,
drop a column, or alter a column's type/nullability/default. -/
inductive Op where
  | add (c : Column)
  | drop (c : Column)
  | alter (old new : Column)
deriving DecidableEq, Repr

/-- Errors raised by the migration applier (spec section 7). -/
inductive MigErr where
  | unreachableTarget
  | statementFailed
deriving DecidableEq, Repr

/-- Whether a column with the given name is present. -/
def hasCol (cols : List Column) (n : String) : Bool :=
  cols.any (fun c => c.name == n)

/-- First column with the given name, matching strictly by name. -/
def findCol (cols : List Column) (n : String) : Option Column :=
  cols.find? (fun c => c.name == n)

/-- Modelled from the spec: executing one column operation against a
live schema; an operation on a missing column (or adding an existing
one) is a statement error. -/
def applyOp (live : List Column) : Op → Except MigErr (List Column)
  | Op.add c =>
    if hasCol live c.name then Except.error MigErr.statementFailed
    else Except.ok (live ++ [c])
  | Op.drop c =>
    if hasCol live c.name then Except.ok (live.filter (fun x => x.name != c.name))
    else Except.error MigErr.statementFailed
  | Op.alter _ newCol =>
    if hasCol live newCol.name then
      Except.ok (live.map (fun x => if x.name == newCol.name then newCol else x))
    else Except.error MigErr.statementFailed

/-- Execute a list of operations in order, aborting on the first
statement error. -/
def applyOps (live : List Column) : List Op → Except MigErr (List Column)
  | [] => Except.ok live
  | op :: rest =>
    match applyOp live op with
    | Except.ok s => applyOps s rest
    | Except.error e => Except.error e

/-- Traced execution of a list of operations: the first component is
the list of statements issued (including a failing one). -/
def runOpsT (live : List Column) : List Op → List Op × Except MigErr (List Column)
  | [] => ([], Except.ok live)
  | op :: rest =>
    match applyOp live op with
    | Except.error e => ([op], Except.error e)
    | Except.ok s =>
      let r := runOpsT s rest
      (op :: r.1, r.2)

/-- A recorded migration step: its index, forward operations, reverse
operations, and the column snapshot the step produces (spec section 3). -/
structure Step where
  idx : Nat
  forward : List Op
  reverse : List Op
  snapshot : List Column
deriving DecidableEq, Repr

/-- Traced execution of a sequence of steps, issuing for each step the
operation list selected by `opsOf`, aborting on the first failure. -/
def runStepsT (live : List Column) (opsOf : Step → List Op) :
    List Step → List Op × Except MigErr (List Column)
  | [] => ([], Except.ok live)
  | st :: rest =>
    let r := runOpsT live (opsOf st)
    match r.2 with
    | Except.error e => (r.1, Except.error e)
    | Except.ok s =>
      let r2 := runStepsT s opsOf rest
      (r.1 ++ r2.1, r2.2)

/-- Per-table migration history and live state: recorded steps in index
order (position i holds index i), the applied index, and the live
schema (spec section 3). -/
structure TableHist where
  tname : String
  steps : List Step
  applied : Nat
  live : List Column
deriving DecidableEq, Repr

/-- Highest recorded step index, -1 when no step is recorded. -/
def highestIdx (t : TableHist) : Int := (t.steps.length : Int) - 1

/-- Modelled from the spec: target resolution of the migration applier
(spec section 4.4 step 2) — the CLI's default index of -1 means
"unspecified" and resolves to the highest recorded index when
upgrading, and to the applied index minus one, clamped below at 0,
when downgrading. -/
def resolveTarget (downgrade : Bool) (index : Int) (applied : Nat) (highest : Int) : Int :=
  if index = -1 then
    if downgrade then max ((applied : Int) - 1) 0 else highest
  else index

/-- Modelled from the spec: `Table.migrate` (spec section 4.4). Resolve
the target index, reject unreachable targets before issuing any
statement, then run the forward operations of steps applied+1..target
(upgrade) or the reverse operations of steps applied..target+1 in
descending step order (downgrade), finally updating the applied index.
Returns the statements issued together with the outcome. -/
def migrate (t : TableHist) (index : Int) (downgrade : Bool) :
    List Op × Except MigErr TableHist :=
  let target := resolveTarget downgrade index t.applied (highestIdx t)
  if target > highestIdx t ∨ target < 0 then ([], Except.error MigErr.unreachableTarget)
  else
    let tn := target.toNat
    if downgrade then
      let seq := ((t.steps.drop (tn + 1)).take (t.applied - tn)).reverse
      let r := runStepsT t.live Step.reverse seq
      (r.1, r.2.map (fun lv => { t with live := lv, applied := tn }))
    else
      let seq := (t.steps.drop (t.applied + 1)).take (tn - t.applied)
      let r := runStepsT t.live Step.forward seq
      (r.1, r.2.map (fun lv => { t with live := lv, applied := tn }))

/-- A minimal table history: one recorded step (the creation step),
applied index 0, live schema equal to the creation snapshot. -/
def sentinelTable : TableHist :=
  ⟨"guild_config",
   [⟨0, [], [], [⟨"id", ColType.integer true, false, none, true⟩]⟩],
   0,
   [⟨"id", ColType.integer true, false, none, true⟩]⟩

/-- Claim C2 counterexample: the CLI's default index -1 is below 0, yet
`migrate` with index -1 succeeds — the sentinel is resolved to a real
target instead of being rejected as unreachable. -/
theorem migrate_neg_one_succeeds_cex :
    (-1 : Int) < 0 ∧ isOkE (migrate sentinelTable (-1) false).2 = true := by
  refine ⟨by norm_num, by decide⟩

/-- Claim C2 (amended): for every explicitly specified target (any
index other than the sentinel -1), a target above the highest recorded
index or below 0 is rejected with an unreachable-target error before
any statement is issued, leaving the table state untouched. -/
theorem unreachable_target_rejected (t : TableHist) (index : Int) (downgrade : Bool)
    (hs : index ≠ -1) (hbad : index < 0 ∨ index > highestIdx t) :
    migrate t index downgrade = ([], Except.error MigErr.unreachableTarget) := by
  have h1 : resolveTarget downgrade index t.applied (highestIdx t) = index := by
    unfold resolveTarget
    exact if_neg hs
  simp only [migrate, h1]
  rw [if_pos (Or.symm hbad)]

/-- Claim C2 witness: migrating the one-step table to index 5 is
rejected as unreachable without issuing a statement. -/
theorem unreachable_target_rejected_witness :
    migrate sentinelTable 5 false = ([], Except.error MigErr.unreachableTarget) :=
  unreachable_target_rejected sentinelTable 5 false (by norm_num) (Or.inr (by decide))

/-- Claim C3: a migrate invocation with the CLI's unspecified target
(index -1) behaves exactly as one targeting the highest recorded index
when upgrading, and the applied index minus one clamped below at 0
when downgrading. -/
theorem default_index_resolution (t : TableHist) :
    migrate t (-1) false = migrate t (highestIdx t) false ∧
    migrate t (-1) true = migrate t (max ((t.applied : Int) - 1) 0) true := by
  constructor
  · by_cases h : highestIdx t = -1
    · rw [h]
    · have h1 : resolveTarget false (-1) t.applied (highestIdx t) = highestIdx t := by
        unfold resolveTarget
        simp
      have h2 : resolveTarget false (highestIdx t) t.applied (highestIdx t) = highestIdx t := by
        unfold resolveTarget
        rw [if_neg h]
      simp only [migrate, h1, h2]
  · have h1 : resolveTarget true (-1) t.applied (highestIdx t) =
        max ((t.applied : Int) - 1) 0 := by
      unfold resolveTarget
      simp
    have h2 : resolveTarget true (max ((t.applied : Int) - 1) 0) t.applied (highestIdx t) =
        max ((t.applied : Int) - 1) 0 := by
      unfold resolveTarget
      rw [if_neg (by omega)]
    simp only [migrate, h1, h2]

theorem isOkE_ok {ε α : Type} (a : α) : isOkE (Except.ok a : Except ε α) = true := rfl

theorem isOkE_err {ε α : Type} (e : ε) : isOkE (Except.error e : Except ε α) = false := rfl

/-- Mapping a success value does not change whether an `Except`
computation succeeded. -/
theorem isOkE_map {ε α β : Type} (r : Except ε α) (f : α → β) :
    isOkE (r.map f) = isOkE r := by
  cases r <;> rfl

/-- Loop body of `apply_migration` in `src/run.py`: migrate each
registered table in order against the shared transaction, stopping at
the first failure. Returns the names of the tables attempted and
either the final states of all tables (commit) or the error (rollback). -/
def batchGo (index : Int) (downgrade : Bool) :
    List TableHist → List String × Except MigErr (List TableHist)
  | [] => ([], Except.ok [])
  | t :: ts =>
    match (migrate t index downgrade).2 with
    | Except.error e => ([t.tname], Except.error e)
    | Except.ok t' =>
      let r := batchGo index downgrade ts
      (t.tname :: r.1, r.2.map (fun l => t' :: l))

/-- `apply_migration` from `src/run.py`: one transaction around the
whole batch; on the first migration error the transaction is rolled
back (every table keeps its pre-batch state) and the loop breaks;
otherwise the transaction commits. The Bool records whether the
transaction committed. -/
def apply_migration (index : Int) (downgrade : Bool) (tables : List TableHist) :
    List String × List TableHist × Bool :=
  match batchGo index downgrade tables with
  | (att, Except.ok ts) => (att, ts, true)
  | (att, Except.error _) => (att, tables, false)

theorem batchGo_cons_err {index : Int} {downgrade : Bool} {t : TableHist}
    {ts : List TableHist} {e : MigErr}
    (h : (migrate t index downgrade).2 = Except.error e) :
    batchGo index downgrade (t :: ts) = ([t.tname], Except.error e) := by
  simp [batchGo, h]

theorem batchGo_cons_ok {index : Int} {downgrade : Bool} {t : TableHist}
    {ts : List TableHist} {t' : TableHist}
    (h : (migrate t index downgrade).2 = Except.ok t') :
    batchGo index downgrade (t :: ts) =
      (t.tname :: (batchGo index downgrade ts).1,
       (batchGo index downgrade ts).2.map (fun l => t' :: l)) := by
  simp [batchGo, h]

theorem batchGo_ok_iff (index : Int) (downgrade : Bool) (ts : List TableHist) :
    isOkE (batchGo index downgrade ts).2 = true ↔
    ∀ t ∈ ts, isOkE (migrate t index downgrade).2 = true := by
  induction ts with
  | nil => simp [batchGo, isOkE]
  | cons t ts ih =>
    cases h : (migrate t index downgrade).2 with
    | error e =>
      rw [batchGo_cons_err h]
      simp [h, isOkE_err, List.forall_mem_cons]
    | ok t' =>
      rw [batchGo_cons_ok h]
      simp [h, isOkE_map, List.forall_mem_cons, isOkE_ok, ih]

theorem batchGo_ok_names (index : Int) (downgrade : Bool) (ts : List TableHist)
    (h : ∀ t ∈ ts, isOkE (migrate t index downgrade).2 = true) :
    (batchGo index downgrade ts).1 = ts.map TableHist.tname := by
  induction ts with
  | nil => rfl
  | cons t ts ih =>
    cases hm : (migrate t index downgrade).2 with
    | error e =>
      have := h t (by simp)
      rw [hm] at this
      simp [isOkE] at this
    | ok t' =>
      rw [batchGo_cons_ok hm]
      simp [ih (fun u hu => h u (by simp [hu]))]

theorem batchGo_fails (index : Int) (downgrade : Bool) :
    ∀ (pre : List TableHist) (t : TableHist) (post : List TableHist),
    (∀ u ∈ pre, isOkE (migrate u index downgrade).2 = true) →
    isOkE (migrate t index downgrade).2 = false →
    ∃ e, batchGo index downgrade (pre ++ t :: post) =
      (pre.map TableHist.tname ++ [t.tname], Except.error e) := by
  intro pre
  induction pre with
  | nil =>
    intro t post _ hbad
    cases hm : (migrate t index downgrade).2 with
    | error e => exact ⟨e, by simp [batchGo, hm]⟩
    | ok t' => rw [hm] at hbad; simp [isOkE] at hbad
  | cons u pre ih =>
    intro t post hpre hbad
    cases hm : (migrate u index downgrade).2 with
    | error e =>
      have := hpre u (by simp)
      rw [hm] at this
      simp [isOkE] at this
    | ok u' =>
      obtain ⟨e, he⟩ := ih t post (fun v hv => hpre v (by simp [hv])) hbad
      refine ⟨e, ?_⟩
      rw [show (u :: pre) ++ t :: post = u :: (pre ++ t :: post) from rfl,
          batchGo_cons_ok hm, he]
      simp [Except.map]

/-- Claim C1: the batch migration of `apply_migration` commits exactly
when every registered table's migrate succeeds; in that case every
table was attempted in order. If some table's migrate fails after all
earlier tables succeeded, the transaction is rolled back — every
table's state, including the applied indexes of tables migrated
earlier in the batch, is exactly as before the batch — and no table
after the failing one is attempted. -/
theorem batch_migration_atomic (index : Int) (downgrade : Bool) (tables : List TableHist) :
    ((apply_migration index downgrade tables).2.2 = true ↔
      ∀ t ∈ tables, isOkE (migrate t index downgrade).2 = true) ∧
    ((∀ t ∈ tables, isOkE (migrate t index downgrade).2 = true) →
      (apply_migration index downgrade tables).1 = tables.map TableHist.tname) ∧
    (∀ (pre : List TableHist) (t : TableHist) (post : List TableHist),
      tables = pre ++ t :: post →
      (∀ u ∈ pre, isOkE (migrate u index downgrade).2 = true) →
      isOkE (migrate t index downgrade).2 = false →
      apply_migration index downgrade tables =
        (pre.map TableHist.tname ++ [t.tname], tables, false)) := by
  refine ⟨?_, ?_, ?_⟩
  · rw [← batchGo_ok_iff index downgrade tables]
    unfold apply_migration
    cases hb : batchGo index downgrade tables with
    | mk att r =>
      cases r with
      | ok ts => simp [isOkE]
      | error e => simp [isOkE]
  · intro h
    have hn := batchGo_ok_names index downgrade tables h
    unfold apply_migration
    cases hb : batchGo index downgrade tables with
    | mk att r =>
      rw [hb] at hn
      cases r with
      | ok ts => simpa using hn
      | error e => simpa using hn
  · intro pre t post htab hpre hbad
    obtain ⟨e, he⟩ := batchGo_fails index downgrade pre t post hpre hbad
    rw [htab]
    unfold apply_migration
    rw [he]

/-- Table earlier in the batch for the claim C1 witness: one pending
step that adds a column. -/
def batchTableOne : TableHist :=
  ⟨"guild_config",
   [⟨0, [], [], [⟨"id", ColType.integer true, false, none, true⟩]⟩,
    ⟨1, [Op.add ⟨"greeting", ColType.string, false, none, false⟩],
     [Op.drop ⟨"greeting", ColType.string, false, none, false⟩],
     [⟨"id", ColType.integer true, false, none, true⟩,
      ⟨"greeting", ColType.string, false, none, false⟩]⟩],
   0,
   [⟨"id", ColType.integer true, false, none, true⟩]⟩

/-- Table later in the batch for the claim C1 witness: no recorded
step, so its migrate fails. -/
def batchTableTwo : TableHist :=
  ⟨"punishment_config", [], 0, []⟩

/-- Claim C1 witness: in a two-table batch where the first table's
migrate succeeds (and would move its applied index) and the second
fails, the batch reports both tables attempted, leaves both tables —
including the first — unchanged, and does not commit. -/
theorem batch_migration_atomic_witness :
    isOkE (migrate batchTableOne (-1) false).2 = true ∧
    isOkE (migrate batchTableTwo (-1) false).2 = false ∧
    apply_migration (-1) false [batchTableOne, batchTableTwo] =
      (["guild_config", "punishment_config"], [batchTableOne, batchTableTwo], false) := by
  refine ⟨by decide, by decide, ?_⟩
  exact (batch_migration_atomic (-1) false [batchTableOne, batchTableTwo]).2.2
    [batchTableOne] batchTableTwo [] rfl (by intro u hu; fin_cases hu; decide) (by decide)

/-- Claim C9 witness: with three distinct roles, one of which is
already stored, the insert is duplicate-free and skips the stored id. -/
theorem bulk_add_no_duplicates_witness :
    (afterPairs 1 (some "colors") [7] [⟨5⟩, ⟨7⟩, ⟨9⟩]).Nodup ∧
    ∀ row ∈ toInsert 1 (some "colors") [7] [⟨5⟩, ⟨7⟩, ⟨9⟩], row.2.1 ∉ [7] :=
  bulk_add_no_duplicates 1 (some "colors") [7] [⟨5⟩, ⟨7⟩, ⟨9⟩] (by decide) (by decide)

/-- Claim C10 witness: a descending integer range below the bot's top
role converts to the inclusive slice. -/
theorem rolerange_convert_characterization_witness :
    convert 20 [0, 1, 2, 3, 4, 5, 6, 7, 8, 9, 10, 11] ⟨some 10, none⟩ ⟨some 5, none⟩ =
      Except.ok (pySlice [0, 1, 2, 3, 4, 5, 6, 7, 8, 9, 10, 11] 5 11) :=
  (rolerange_convert_characterization 20 [0, 1, 2, 3, 4, 5, 6, 7, 8, 9, 10, 11]
      ⟨some 10, none⟩ ⟨some 5, none⟩).2 10 5 rfl (by norm_num) (by norm_num) (by norm_num)

/-- Whether two same-named columns differ in type, nullability or
default (the attributes the differ compares, spec section 4.2). -/
def attrsDiffer (old new : Column) : Bool :=
  decide (old.ctype ≠ new.ctype) || decide (old.nullable ≠ new.nullable) ||
    decide (old.default ≠ new.default)

/-- Alter operation emitted for a current column, if its snapshot
counterpart exists and differs. -/
def alterFor (snap : List Column) (c : Column) : Option Op :=
  match findCol snap c.name with
  | some old => if attrsDiffer old c then some (Op.alter old c) else none
  | none => none

/-- Modelled from the spec: the Schema Differ (spec section 4.2).
Columns are matched strictly by name; snapshot columns absent now are
dropped, current columns absent from the snapshot are added, and
columns present in both with differing type/nullability/default are
altered — drops before adds before alters. -/
def diff (cur snap : List Column) : List Op :=
  ((snap.filter (fun c => ! hasCol cur c.name)).map Op.drop)
    ++ ((cur.filter (fun c => ! hasCol snap c.name)).map Op.add)
    ++ (cur.filterMap (alterFor snap))

/-- The structural inverse of one column operation (spec section 4.3). -/
def invOp : Op → Op
  | Op.add c => Op.drop c
  | Op.drop c => Op.add c
  | Op.alter old newCol => Op.alter newCol old

/-- Agreement of a current descriptor and a snapshot on all column
names, types, nullability, and defaults. -/
def schemasAgree (cur snap : List Column) : Prop :=
  (∀ c ∈ cur, hasCol snap c.name = true) ∧
  (∀ c ∈ snap, hasCol cur c.name = true) ∧
  (∀ c ∈ cur, ∀ o ∈ snap, o.name = c.name → attrsDiffer o c = false)

theorem alterFor_eq_some (snap : List Column) (c : Column) (o : Op) :
    alterFor snap c = some o ↔
    ∃ old, findCol snap c.name = some old ∧ attrsDiffer old c = true ∧
      o = Op.alter old c := by
  unfold alterFor
  cases h : findCol snap c.name with
  | none => simp
  | some old =>
    dsimp only
    by_cases hd : attrsDiffer old c = true
    · rw [if_pos hd]
      constructor
      · intro he
        injection he with he
        exact ⟨old, rfl, hd, he.symm⟩
      · rintro ⟨old', hol, _, rfl⟩
        injection hol with hol
        rw [hol]
    · rw [if_neg hd]
      constructor
      · intro he
        exact absurd he (by simp)
      · rintro ⟨old', hol, hda, rfl⟩
        injection hol with hol
        subst hol
        exact absurd hda hd

theorem findCol_mem {cols : List Column} {n : String} {c : Column}
    (h : findCol cols n = some c) : c ∈ cols ∧ c.name = n := by
  unfold findCol at h
  refine ⟨List.mem_of_find?_eq_some h, ?_⟩
  have := List.find?_some h
  simpa using this

theorem findCol_of_mem_nodup {cols : List Column} {c : Column}
    (hn : (cols.map Column.name).Nodup) (hm : c ∈ cols) :
    findCol cols c.name = some c := by
  induction cols with
  | nil => simp at hm
  | cons d rest ih =>
    rcases List.mem_cons.mp hm with rfl | hm'
    · unfold findCol
      simp
    · have hne : d.name ≠ c.name := by
        intro he
        rw [List.map_cons, List.nodup_cons] at hn
        exact hn.1 (he ▸ List.mem_map_of_mem Column.name hm')
      unfold findCol
      rw [List.find?_cons_of_neg _ (by simpa using hne)]
      exact ih (by rw [List.map_cons, List.nodup_cons] at hn; exact hn.2) hm'

theorem hasCol_iff_findCol (cols : List Column) (n : String) :
    hasCol cols n = true ↔ ∃ c, findCol cols n = some c := by
  unfold hasCol findCol
  rw [List.any_eq_true]
  constructor
  · rintro ⟨c, hc, hp⟩
    rcases h : List.find? (fun c => c.name == n) cols with _ | d
    · rw [List.find?_eq_none] at h
      exact absurd hp (by simpa using h c hc)
    · exact ⟨d, h⟩
  · rintro ⟨c, hc⟩
    exact ⟨c, (findCol_mem hc).1, by simp [(findCol_mem hc).2]⟩

/-- Claim C6: matching strictly by name, the differ emits a drop for
every snapshot column absent now, an add for every current column
absent from the snapshot, and an alter for every column present in
both whose type/nullability/default differ; all drops precede all adds
precede all alters; and the diff is empty exactly when descriptor and
snapshot agree on all names, types, nullability and defaults. -/
theorem diff_characterization (cur snap : List Column)
    (hs : (snap.map Column.name).Nodup) :
    (∀ c, Op.drop c ∈ diff cur snap ↔ c ∈ snap ∧ hasCol cur c.name = false) ∧
    (∀ c, Op.add c ∈ diff cur snap ↔ c ∈ cur ∧ hasCol snap c.name = false) ∧
    (∀ old newCol, Op.alter old newCol ∈ diff cur snap ↔
      newCol ∈ cur ∧ findCol snap newCol.name = some old ∧
        attrsDiffer old newCol = true) ∧
    (∃ ds adds als, diff cur snap = ds ++ adds ++ als ∧
      (∀ o ∈ ds, ∃ c, o = Op.drop c) ∧ (∀ o ∈ adds, ∃ c, o = Op.add c) ∧
      (∀ o ∈ als, ∃ x y, o = Op.alter x y)) ∧
    (diff cur snap = [] ↔ schemasAgree cur snap) := by
  refine ⟨?_, ?_, ?_, ?_, ?_⟩
  · intro c
    simp [diff, List.mem_append, List.mem_map, List.mem_filter, List.mem_filterMap,
      alterFor_eq_some]
  · intro c
    simp [diff, List.mem_append, List.mem_map, List.mem_filter, List.mem_filterMap,
      alterFor_eq_some]
  · intro old newCol
    simp only [diff, List.mem_append, List.mem_map, List.mem_filter, List.mem_filterMap,
      alterFor_eq_some]
    constructor
    · rintro ((⟨x, _, hx⟩ | ⟨x, _, hx⟩) | ⟨x, hxc, x', hfind, hda, hx⟩)
      · exact absurd hx (by simp)
      · exact absurd hx (by simp)
      · injection hx with e1 e2
        subst e1
        subst e2
        exact ⟨hxc, hfind, hda⟩
    · rintro ⟨hmem, hfind, hda⟩
      exact Or.inr ⟨newCol, hmem, old, hfind, hda, rfl⟩
  · refine ⟨_, _, _, rfl, ?_, ?_, ?_⟩
    · intro o ho
      obtain ⟨c, _, rfl⟩ := List.mem_map.mp ho
      exact ⟨c, rfl⟩
    · intro o ho
      obtain ⟨c, _, rfl⟩ := List.mem_map.mp ho
      exact ⟨c, rfl⟩
    · intro o ho
      obtain ⟨c, _, hf⟩ := List.mem_filterMap.mp ho
      obtain ⟨old, _, _, rfl⟩ := (alterFor_eq_some _ _ _).mp hf
      exact ⟨old, c, rfl⟩
  · constructor
    · intro h
      unfold diff at h
      rw [List.append_assoc, List.append_eq_nil] at h
      obtain ⟨hA, hBC⟩ := h
      rw [List.append_eq_nil] at hBC
      obtain ⟨hB, hC⟩ := hBC
      rw [List.map_eq_nil_iff, List.filter_eq_nil_iff] at hA hB
      rw [List.filterMap_eq_nil_iff] at hC
      have conj2 : ∀ c ∈ snap, hasCol cur c.name = true := by
        intro c hc
        have := hA c hc
        simpa using this
      have conj1 : ∀ c ∈ cur, hasCol snap c.name = true := by
        intro c hc
        have := hB c hc
        simpa using this
      refine ⟨conj1, conj2, ?_⟩
      intro c hc o ho hname
      have halt := hC c hc
      have hfind : findCol snap c.name = some o := by
        rw [← hname]
        exact findCol_of_mem_nodup hs ho
      unfold alterFor at halt
      rw [hfind] at halt
      dsimp only at halt
      by_cases hd : attrsDiffer o c = true
      · rw [if_pos hd] at halt
        exact absurd halt (by simp)
      · simpa using hd
    · rintro ⟨conj1, conj2, conj3⟩
      unfold diff
      have hA : (snap.filter (fun c => ! hasCol cur c.name)) = [] := by
        rw [List.filter_eq_nil_iff]
        intro c hc
        simp [conj2 c hc]
      have hB : (cur.filter (fun c => ! hasCol snap c.name)) = [] := by
        rw [List.filter_eq_nil_iff]
        intro c hc
        simp [conj1 c hc]
      have hC : cur.filterMap (alterFor snap) = [] := by
        rw [List.filterMap_eq_nil_iff]
        intro c hc
        unfold alterFor
        cases hf : findCol snap c.name with
        | none => rfl
        | some old =>
          dsimp only
          have hmem := findCol_mem hf
          rw [if_neg ?_]
          rw [conj3 c hc old hmem.1 hmem.2]
          simp
      rw [hA, hB, hC]
      simp

/-- Current descriptor for the claim C6 witness: `greeting` gone,
`is_configured` new. -/
def diffCurW : List Column :=
  [ ⟨"id", ColType.integer true, false, none, true⟩
  , ⟨"is_configured", ColType.boolean, false, none, false⟩ ]

/-- Snapshot for the claim C6 witness. -/
def diffSnapW : List Column :=
  [ ⟨"id", ColType.integer true, false, none, true⟩
  , ⟨"greeting", ColType.string, false, none, false⟩ ]

/-- Claim C6 witness: on a concrete descriptor/snapshot pair the differ
emits the drop of the vanished column and the add of the new column. -/
theorem diff_characterization_witness :
    Op.drop ⟨"greeting", ColType.string, false, none, false⟩ ∈ diff diffCurW diffSnapW ∧
    Op.add ⟨"is_configured", ColType.boolean, false, none, false⟩ ∈ diff diffCurW diffSnapW :=
  ⟨((diff_characterization diffCurW diffSnapW (by decide)).1 _).mpr ⟨by decide, by decide⟩,
   ((diff_characterization diffCurW diffSnapW (by decide)).2.1 _).mpr ⟨by decide, by decide⟩⟩

/-- Modelled from the spec: `Table.write_migration` (spec section 4.3).
With no recorded step the call fails with a no-baseline error; with an
empty diff against the latest snapshot it reports no change; otherwise
it appends one step carrying the next sequential index, the diff as
forward operations, the structural inverses in reverse order as
reverse operations, and the current column list as snapshot. -/
def write_migration (cur : List Column) (t : TableHist) :
    Except String (Bool × TableHist) :=
  match t.steps.getLast? with
  | none => Except.error ("Table " ++ t.tname ++ " has no base migration")
  | some last =>
    let d := diff cur last.snapshot
    if d.isEmpty then Except.ok (false, t)
    else
      Except.ok (true,
        { t with steps := t.steps ++ [⟨t.steps.length, d, (d.map invOp).reverse, cur⟩] })

/-- Operator-facing outcome of the `migrate` CLI subcommand. -/
inductive Report where
  | migrationFailed
  | updated
  | noChanges
deriving DecidableEq, Repr

/-- Reporting logic of `work` in `src/run.py`: a RuntimeError prints a
migration error, a true result prints "Successfully updated
migrations", a false result prints "Found no changes". -/
def workReport (r : Except String (Bool × TableHist)) : Report :=
  match r with
  | Except.error _ => Report.migrationFailed
  | Except.ok (true, _) => Report.updated
  | Except.ok (false, _) => Report.noChanges

/-- Claim C4: `write_migration` has exactly three outcomes — a
no-baseline error when no prior step exists (reported as a migration
error), "no change" when the diff against the latest snapshot is empty
(reported as "Found no changes", no step written), and otherwise the
append of exactly one step carrying the next sequential index
(reported as "Successfully updated migrations"). -/
theorem write_migration_outcomes (cur : List Column) (t : TableHist) :
    (t.steps = [] →
      (∃ e, write_migration cur t = Except.error e) ∧
      workReport (write_migration cur t) = Report.migrationFailed) ∧
    (∀ last, t.steps.getLast? = some last →
      (diff cur last.snapshot = [] →
        write_migration cur t = Except.ok (false, t) ∧
        workReport (write_migration cur t) = Report.noChanges) ∧
      (diff cur last.snapshot ≠ [] →
        ∃ st, write_migration cur t = Except.ok (true, { t with steps := t.steps ++ [st] }) ∧
          st.idx = t.steps.length ∧ st.forward = diff cur last.snapshot ∧
          st.reverse = ((diff cur last.snapshot).map invOp).reverse ∧
          st.snapshot = cur ∧
          workReport (write_migration cur t) = Report.updated)) := by
  constructor
  · intro hnil
    have h : t.steps.getLast? = none := by
      rw [hnil]
      rfl
    unfold write_migration
    rw [h]
    exact ⟨⟨_, rfl⟩, rfl⟩
  · intro last hlast
    constructor
    · intro hdiff
      unfold write_migration
      rw [hlast]
      simp only [hdiff]
      exact ⟨rfl, rfl⟩
    · intro hdiff
      unfold write_migration
      rw [hlast]
      have : (diff cur last.snapshot).isEmpty = false := by
        cases h : diff cur last.snapshot with
        | nil => exact absurd h hdiff
        | cons a l => rfl
      simp only [this, Bool.false_eq_true, if_false]
      exact ⟨_, rfl, rfl, rfl, rfl, rfl, rfl⟩

/-- Table with one recorded step for the claim C4 witness. -/
def writerTableW : TableHist :=
  ⟨"guild_config",
   [⟨0, [], [], diffSnapW⟩],
   0,
   diffSnapW⟩

/-- Claim C4 witness: against a one-step history whose snapshot drifted,
`write_migration` appends exactly one step at index 1 and the CLI
reports success. -/
theorem write_migration_outcomes_witness :
    ∃ st, write_migration diffCurW writerTableW =
        Except.ok (true, { writerTableW with steps := writerTableW.steps ++ [st] }) ∧
      st.idx = writerTableW.steps.length ∧
      st.forward = diff diffCurW diffSnapW ∧
      st.reverse = ((diff diffCurW diffSnapW).map invOp).reverse ∧
      st.snapshot = diffCurW ∧
      workReport (write_migration diffCurW writerTableW) = Report.updated :=
  ((write_migration_outcomes diffCurW writerTableW).2 ⟨0, [], [], diffSnapW⟩ rfl).2
    (by decide)

/-- Traced execution agrees with plain execution on the outcome. -/
theorem runOpsT_snd (live : List Column) (ops : List Op) :
    (runOpsT live ops).2 = applyOps live ops := by
  induction ops generalizing live with
  | nil => rfl
  | cons op rest ih =>
    unfold runOpsT applyOps
    cases h : applyOp live op with
    | error e => rfl
    | ok s => exact ih s

theorem runStepsT_cons_ok {live m : List Column} {opsOf : Step → List Op}
    {st : Step} {rest : List Step} (h : applyOps live (opsOf st) = Except.ok m) :
    (runStepsT live opsOf (st :: rest)).2 = (runStepsT m opsOf rest).2 := by
  simp only [runStepsT, runOpsT_snd, h]

theorem runStepsT_cons_err {live : List Column} {opsOf : Step → List Op}
    {st : Step} {rest : List Step} {e : MigErr}
    (h : applyOps live (opsOf st) = Except.error e) :
    (runStepsT live opsOf (st :: rest)).2 = Except.error e := by
  simp only [runStepsT, runOpsT_snd, h]

theorem runStepsT_single (live : List Column) (opsOf : Step → List Op) (st : Step) :
    (runStepsT live opsOf [st]).2 = applyOps live (opsOf st) := by
  cases h : applyOps live (opsOf st) with
  | error e => simp only [runStepsT, runOpsT_snd, h]
  | ok s => simp only [runStepsT, runOpsT_snd, h]

theorem runStepsT_append (opsOf : Step → List Op) (l₁ l₂ : List Step) :
    ∀ (s m : List Column), (runStepsT s opsOf l₁).2 = Except.ok m →
    (runStepsT s opsOf (l₁ ++ l₂)).2 = (runStepsT m opsOf l₂).2 := by
  induction l₁ with
  | nil =>
    intro s m h
    injection h with h
    rw [h]
    rfl
  | cons st rest ih =>
    intro s m h
    rw [List.cons_append]
    cases ha : applyOps s (opsOf st) with
    | error e =>
      rw [runStepsT_cons_err ha] at h
      exact absurd h (by simp)
    | ok s' =>
      rw [runStepsT_cons_ok ha] at h
      rw [runStepsT_cons_ok ha]
      exact ih s' m h

/-- Well-formedness of a run of steps relative to a starting schema:
each step's forward operations produce its snapshot and its reverse
operations restore the preceding schema — the shape the Migration
Writer guarantees by construction (spec section 4.3). -/
def chainOk (s : List Column) : List Step → Bool
  | [] => true
  | st :: rest =>
    match applyOps s st.forward, applyOps st.snapshot st.reverse with
    | Except.ok f, Except.ok r =>
      decide (f = st.snapshot) && decide (r = s) && chainOk st.snapshot rest
    | _, _ => false

/-- Snapshot reached after a run of steps from a starting schema. -/
def lastSnap (s : List Column) : List Step → List Column
  | [] => s
  | st :: rest => lastSnap st.snapshot rest

theorem chainOk_cons {s : List Column} {st : Step} {rest : List Step} :
    chainOk s (st :: rest) = true ↔
    applyOps s st.forward = Except.ok st.snapshot ∧
    applyOps st.snapshot st.reverse = Except.ok s ∧
    chainOk st.snapshot rest = true := by
  rw [chainOk]
  cases hf : applyOps s st.forward with
  | error e => simp [hf]
  | ok f =>
    cases hr : applyOps st.snapshot st.reverse with
    | error e => simp [hf, hr]
    | ok r => simp [hf, hr, and_assoc]

theorem runStepsT_forward_chain : ∀ (steps : List Step) (s : List Column),
    chainOk s steps = true →
    (runStepsT s Step.forward steps).2 = Except.ok (lastSnap s steps) := by
  intro steps
  induction steps with
  | nil => intro s _; rfl
  | cons st rest ih =>
    intro s hc
    obtain ⟨hf, _, hrest⟩ := chainOk_cons.mp hc
    rw [runStepsT_cons_ok hf]
    exact ih st.snapshot hrest

theorem runStepsT_reverse_chain : ∀ (steps : List Step) (s : List Column),
    chainOk s steps = true →
    (runStepsT (lastSnap s steps) Step.reverse steps.reverse).2 = Except.ok s := by
  intro steps
  induction steps with
  | nil => intro s _; rfl
  | cons st rest ih =>
    intro s hc
    obtain ⟨_, hr, hrest⟩ := chainOk_cons.mp hc
    have hmid := ih st.snapshot hrest
    have hlast : lastSnap s (st :: rest) = lastSnap st.snapshot rest := rfl
    rw [hlast, show (st :: rest).reverse = rest.reverse ++ [st] from by simp,
      runStepsT_append Step.reverse rest.reverse [st] _ _ hmid,
      runStepsT_single]
    exact hr

theorem migrate_upgrade_snd (t : TableHist) (b : Nat) (hb : b < t.steps.length) :
    (migrate t (b : Int) false).2 =
      ((runStepsT t.live Step.forward
          ((t.steps.drop (t.applied + 1)).take (b - t.applied))).2).map
        (fun lv => { t with live := lv, applied := b }) := by
  have hres : resolveTarget false (b : Int) t.applied (highestIdx t) = (b : Int) := by
    unfold resolveTarget
    rw [if_neg (by omega)]
  have hcond : ¬((b : Int) > highestIdx t ∨ (b : Int) < 0) := by
    unfold highestIdx
    omega
  simp only [migrate, hres]
  rw [if_neg hcond]
  simp [Int.toNat_natCast]

theorem migrate_downgrade_snd (t : TableHist) (a : Nat) (ha : a < t.steps.length) :
    (migrate t (a : Int) true).2 =
      ((runStepsT t.live Step.reverse
          (((t.steps.drop (a + 1)).take (t.applied - a)).reverse)).2).map
        (fun lv => { t with live := lv, applied := a }) := by
  have hres : resolveTarget true (a : Int) t.applied (highestIdx t) = (a : Int) := by
    unfold resolveTarget
    rw [if_neg (by omega)]
  have hcond : ¬((a : Int) > highestIdx t ∨ (a : Int) < 0) := by
    unfold highestIdx
    omega
  simp only [migrate, hres]
  rw [if_neg hcond]
  simp [Int.toNat_natCast]

/-- Claim C5: for a table whose recorded steps in the range (a, b] are
well-formed relative to the live schema (forward operations produce
each snapshot and reverse operations restore the preceding one, as the
Migration Writer guarantees), upgrading from applied index a to b and
then downgrading back to a succeeds and restores the table exactly —
the live schema (its full column list) and the applied index return to
their pre-upgrade values. -/
theorem upgrade_downgrade_roundtrip (t : TableHist) (a b : Nat)
    (hab : a < b) (hb : b < t.steps.length) (happ : t.applied = a)
    (hchain : chainOk t.live ((t.steps.drop (a + 1)).take (b - a)) = true) :
    ∃ t₁, (migrate t (b : Int) false).2 = Except.ok t₁ ∧ t₁.applied = b ∧
      (migrate t₁ (a : Int) true).2 = Except.ok t := by
  have hrun := runStepsT_forward_chain ((t.steps.drop (a + 1)).take (b - a)) t.live hchain
  have hrev := runStepsT_reverse_chain ((t.steps.drop (a + 1)).take (b - a)) t.live hchain
  refine ⟨{ t with
      live := lastSnap t.live ((t.steps.drop (a + 1)).take (b - a)),
      applied := b }, ?_, rfl, ?_⟩
  · rw [migrate_upgrade_snd t b hb, happ, hrun]
    rfl
  · rw [migrate_downgrade_snd
        { t with live := lastSnap t.live ((t.steps.drop (a + 1)).take (b - a)), applied := b }
        a (by simp; omega)]
    simp only
    rw [hrev]
    have hteq : ({ t with applied := a, live := t.live } : TableHist) = t := by
      cases t
      simp only at happ
      rw [← happ]
    simp only [Except.map]
    rw [hteq]

/-- Two-step table for the claim C5 witness: step 1 adds `greeting`
and its reverse drops it again. -/
def roundtripTableW : TableHist :=
  ⟨"guild_config",
   [⟨0, [], [], [⟨"id", ColType.integer true, false, none, true⟩]⟩,
    ⟨1, [Op.add ⟨"greeting", ColType.string, false, none, false⟩],
     [Op.drop ⟨"greeting", ColType.string, false, none, false⟩],
     [⟨"id", ColType.integer true, false, none, true⟩,
      ⟨"greeting", ColType.string, false, none, false⟩]⟩],
   0,
   [⟨"id", ColType.integer true, false, none, true⟩]⟩

/-- Claim C5 witness: upgrading the two-step table from index 0 to 1
then downgrading back to 0 restores the table exactly. -/
theorem upgrade_downgrade_roundtrip_witness :
    ∃ t₁, (migrate roundtripTableW ((1 : Nat) : Int) false).2 = Except.ok t₁ ∧
      t₁.applied = 1 ∧
      (migrate t₁ ((0 : Nat) : Int) true).2 = Except.ok roundtripTableW :=
  upgrade_downgrade_roundtrip roundtripTableW 0 1 (by decide) (by decide) (by decide)
    (by decide)

end Fireside
